import Mathlib

/-!
Verification development for the `numeric-lut` table generator
(`src/lib.rs`).  The library is a procedural macro `lut!` that parses a
closure-like specification `|x @ 0..8, y @ 0..16| -> u32 { body }`,
validates the integer-literal ranges, builds a nested array literal
holding the body's value for every combination of parameter values, and
emits an accessor closure performing chained indexing into that table.

The development shallowly embeds:
  * the parsed data model (`Param`, mirroring `struct Param` in the
    source) and the relevant fragment of `syn`'s pattern/expression
    syntax tree (`SynPat`, `SynExpr`, `SynLit`, `RangeLimits`);
  * the validation logic of `Param::from_pat` / `Param::from_pat_ident`;
  * the code generator `lut` (`generate_array`, the `table_data`,
    `lut_access`, `lut_params` and `lut_type` folds);
  * the host-language semantics of the generated fragments: evaluation
    of the nested array literal with `const` bindings (`evalGen`), and
    evaluation of the chained indexing expression where an
    out-of-bounds index is a run-time panic, modelled as `none`.
-/

namespace NumericLut

/-- Environment of named `usize` constants visible to the body fragment.
The generated code injects `const #ident: usize = #n;` bindings; the host
evaluates the opaque body under such an environment. -/
def Env : Type := String → Nat

/-- Shadowing update of the constant environment: a fresh
`const x: usize = v;` binding shadowing any outer `x`. -/
def Env.update (env : Env) (x : String) (v : Nat) : Env :=
  fun y => if y = x then v else env y

/-- Mirrors `struct Param` in `src/lib.rs`: one parsed parameter with its
identifier, lower bound, upper bound and end-exclusivity flag. -/
structure Param where
  ident : String
  lo : Nat
  exclusive_end : Bool
  hi : Nat
deriving DecidableEq, Repr

/-- Element count of a parameter's dimension, as computed inside the
`lut_type` fold in `lut`: `hi - lo` for an exclusive range start..stop,
`hi - lo + 1` for an inclusive one. -/
def Param.count (p : Param) : Nat :=
  if p.exclusive_end then p.hi - p.lo else p.hi - p.lo + 1

/-- The ascending sequence `s, s+1, ..., s+n-1` of length `n`: the values
yielded by a Rust range iterator starting at `s` with `n` elements. -/
def rangeFrom : Nat → Nat → List Nat
  | _, 0 => []
  | s, n + 1 => s :: rangeFrom (s + 1) n

/-- Values yielded by the Rust iterator `lo..hi` (empty when `hi ≤ lo`). -/
def rustRangeExclusive (lo hi : Nat) : List Nat :=
  rangeFrom lo (hi - lo)

/-- Values yielded by the Rust iterator `lo..=hi` (empty when `hi < lo`). -/
def rustRangeInclusive (lo hi : Nat) : List Nat :=
  rangeFrom lo (hi + 1 - lo)

/-- The iterator the generator passes to `generate_array` for a
parameter: `param.lo..param.hi` if `exclusive_end`, else
`param.lo..=param.hi`. -/
def Param.rangeValues (p : Param) : List Nat :=
  if p.exclusive_end then rustRangeExclusive p.lo p.hi
  else rustRangeInclusive p.lo p.hi

/-- Syntax of the generated table initializer, over an opaque body
fragment type `β`.  `body` re-emits the opaque fragment verbatim;
`constBind x n e` is the generated block
`{ const x: usize = n; e }`; `array es` is the literal `[e0, e1, ...]`. -/
inductive GenExpr (β : Type) where
  | body (b : β)
  | constBind (ident : String) (value : Nat) (inner : GenExpr β)
  | array (items : List (GenExpr β))

/-- Mirrors `generate_array` in `src/lib.rs`: an array literal whose
`k`-th element is a copy of `body` preceded by a `const` binding of
`ident` to the `k`-th value yielded by `range`. -/
def generate_array (ident : String) (range : List Nat) (body : GenExpr β) :
    GenExpr β :=
  .array (range.map (fun n => .constBind ident n body))

/-- One step of the `table_data` fold in `lut`: wrap the current payload
in one array dimension for parameter `param`, choosing the exclusive or
inclusive range iterator. -/
def table_step (body : GenExpr β) (param : Param) : GenExpr β :=
  if param.exclusive_end then
    generate_array param.ident (rustRangeExclusive param.lo param.hi) body
  else
    generate_array param.ident (rustRangeInclusive param.lo param.hi) body

/-- Mirrors the `table_data` fold in `lut`:
`input.inputs.iter().rev().fold(input.body, ...)`, so the last declared
parameter is processed first (innermost) and the first declared
parameter ends up outermost. -/
def table_data (inputs : List Param) (body : GenExpr β) : GenExpr β :=
  inputs.reverse.foldl table_step body

/-- Syntax of the generated accessor's body: `__LUT` followed by a chain
of index operations `expr[ident]`. -/
inductive IndexExpr where
  | lutRef
  | index (base : IndexExpr) (ident : String)
deriving DecidableEq, Repr

/-- Mirrors the `lut_access` fold in `lut`:
`inputs.iter().fold(quote!(__LUT), |expr, param| quote!(#expr[#ident]))`. -/
def lut_access (inputs : List Param) : IndexExpr :=
  inputs.foldl (fun expr param => .index expr param.ident) .lutRef

/-- Mirrors `lut_params` in `lut`: the generated closure's parameter
names, in declared order (each typed `usize`). -/
def lut_params (inputs : List Param) : List String :=
  inputs.map (fun param => param.ident)

/-- Syntax of the generated static's type annotation: the return type
wrapped in array types `[ty; count]`. -/
inductive LutType (τ : Type) where
  | base (t : τ)
  | arr (elem : LutType τ) (size : Nat)
deriving DecidableEq, Repr

/-- Mirrors the `lut_type` fold in `lut`:
`inputs.iter().rev().fold(return_type, |ty, param| [#ty; #count])` with
`count = hi - lo` if exclusive else `hi - lo + 1`. -/
def lut_type (inputs : List Param) (return_type : τ) : LutType τ :=
  inputs.reverse.foldl (fun ty param => .arr ty param.count) (.base return_type)

/-- Host-language value of evaluating a generated initializer: either a
scalar (one evaluated copy of the body) or an array of values. -/
inductive Value (α : Type) where
  | scalar (a : α)
  | arr (items : List (Value α))

mutual

/-- Host-language evaluation of a generated initializer under a constant
environment.  `denote` is the host's (opaque) evaluation of the body
fragment given the constants in scope; ` constBind` evaluates its inner
expression under the shadowing update; an array literal evaluates
elementwise. -/
def evalGen (denote : β → Env → α) : GenExpr β → Env → Value α
  | .body b, env => .scalar (denote b env)
  | .constBind x n e, env => evalGen denote e (Env.update env x n)
  | .array es, env => .arr (evalGenList denote es env)

/-- Elementwise evaluation of the items of a generated array literal. -/
def evalGenList (denote : β → Env → α) : List (GenExpr β) → Env → List (Value α)
  | [], _ => []
  | e :: es, env => evalGen denote e env :: evalGenList denote es env

end

/-- Rust array indexing `v[i]`: yields the `i`-th element, or a run-time
panic — modelled as `none` — when `i` is out of bounds. -/
def Value.index : Value α → Nat → Option (Value α)
  | .arr items, i => items[i]?
  | .scalar _, _ => none

/-- Host-language evaluation of the generated accessor body: `__LUT`
denotes the table value; each `[ident]` step looks the identifier up in
the closure's argument environment and indexes, propagating a panic. -/
def evalIndexExpr (table : Value α) (env : Env) : IndexExpr → Option (Value α)
  | .lutRef => some table
  | .index e x => (evalIndexExpr table env e).bind (fun v => v.index (env x))

/-- Sequential shadowing binding of a list of name/value pairs, later
pairs shadowing earlier ones (how the host binds closure arguments and
how nested `const` blocks accumulate). -/
def updSeq (env : Env) : List (String × Nat) → Env
  | [] => env
  | (x, v) :: rest => updSeq (Env.update env x v) rest

/-- The closure-argument environment: parameter names bound positionally
to the call's arguments. -/
def bindArgs (names : List String) (args : List Nat) (env : Env) : Env :=
  updSeq env (names.zip args)

/-- The constant environment reached at a table cell: each parameter
bound, outermost first, to `lo + index`. -/
def bindParams (env : Env) (ps : List Param) (is : List Nat) : Env :=
  updSeq env ((ps.zip is).map (fun q => (q.1.ident, q.1.lo + q.2)))

/-- Calling the generated accessor: evaluate the static table once, bind
the closure's parameters to the call's arguments, and evaluate the
chained indexing expression.  `none` is a run-time panic. -/
def lutCall (denote : β → Env → α) (inputs : List Param) (b : β)
    (env : Env) (args : List Nat) : Option (Value α) :=
  evalIndexExpr (evalGen denote (table_data inputs (.body b)) env)
    (bindArgs (lut_params inputs) args env) (lut_access inputs)

/-! ### Parser / validator embedding

The fragment of the `syn` syntax tree that `Param::from_pat` inspects.
Spans are modelled as bare naturals; each node carries the span that the
source would report via `.span()`. -/

/-- The `syn::Lit` cases distinguished by the source: integer literals
(whose `base10_parse::<usize>` result is carried directly) versus any
other literal kind such as a float. -/
inductive SynLit where
  | int (value : Nat)
  | float (text : String)
  | str (text : String)
deriving DecidableEq, Repr

/-- Range-endpoint expressions: a literal, a path (variable), a call, or
some other expression — `Param::from_pat_ident` only ever distinguishes
`Expr::Lit(Lit::Int(..))` from everything else. -/
inductive SynExpr where
  | lit (l : SynLit) (span : Nat)
  | path (name : String) (span : Nat)
  | call (callee : String) (span : Nat)
  | otherExpr (descr : String) (span : Nat)
deriving DecidableEq, Repr

/-- The span of an endpoint expression (`expr.span()`). -/
def SynExpr.span : SynExpr → Nat
  | .lit _ sp => sp
  | .path _ sp => sp
  | .call _ sp => sp
  | .otherExpr _ sp => sp

/-- Whether an endpoint expression is an integer literal, the only form
`Param::from_pat_ident` accepts. -/
def SynExpr.isIntLit : SynExpr → Bool
  | .lit (.int _) _ => true
  | _ => false

/-- Mirrors `syn::RangeLimits`: `..` is `HalfOpen`, `..=` is `Closed`. -/
inductive RangeLimits where
  | HalfOpen
  | Closed
deriving DecidableEq, Repr

/-- The `syn::Pat` cases the parser distinguishes: an identifier pattern
with an optional `@`-bound sub-pattern, a range pattern, and the other
pattern shapes (wildcard, tuple, literal) that are all rejected the same
way. -/
inductive SynPat where
  | identPat (ident : String) (span : Nat) (subpat : Option SynPat)
  | rangePat (lo : SynExpr) (limits : RangeLimits) (hi : SynExpr) (span : Nat)
  | wild (span : Nat)
  | tuplePat (span : Nat)
  | litPat (span : Nat)

/-- The span of a pattern (`pat.span()`). -/
def SynPat.span : SynPat → Nat
  | .identPat _ sp _ => sp
  | .rangePat _ _ _ sp => sp
  | .wild sp => sp
  | .tuplePat sp => sp
  | .litPat sp => sp

/-- A location-tagged diagnostic, mirroring `syn::Error::new(span, msg)`. -/
structure SynError where
  span : Nat
  msg : String
deriving DecidableEq, Repr

/-- Mirrors `Param::from_pat_ident`: requires an `@`-bound sub-pattern
that is a range pattern with integer-literal endpoints satisfying
`lo ≤ hi`; every other shape produces the source's location-tagged
error. -/
def Param.from_pat_ident (ident : String) (identSpan : Nat) :
    Option SynPat → Except SynError Param
  | some pat =>
    match pat with
    | .rangePat lo limits hi patSpan =>
      match lo with
      | .lit (.int loVal) _ =>
        match hi with
        | .lit (.int hiVal) _ =>
          if hiVal < loVal then
            .error ⟨patSpan,
              "range lower bound " ++ toString loVal ++
                " must be less than upper bound " ++ toString hiVal⟩
          else
            .ok ⟨ident, loVal,
              (match limits with
               | .Closed => false
               | .HalfOpen => true), hiVal⟩
        | expr => .error ⟨expr.span, "must be an integer literal"⟩
      | expr => .error ⟨expr.span, "must be an integer literal"⟩
    | pat => .error ⟨pat.span, "only range patterns allowed (e.g. `1..2` or `3..=4`)"⟩
  | none =>
    .error ⟨identSpan,
      "this parameter must have a specified range pattern (e.g. `" ++
        ident ++ " @ 1..2`)"⟩

/-- Mirrors `Param::from_pat`: only identifier patterns are examined;
any other pattern shape is rejected with a location-tagged error. -/
def Param.from_pat : SynPat → Except SynError Param
  | .identPat ident sp subpat => Param.from_pat_ident ident sp subpat
  | other =>
    .error ⟨other.span,
      "this parameter must have a range pattern (e.g. `x @ 1..2` or `y @ 3..=4`)"⟩

/-- Mirrors the parameter-parsing loop in `<Lut as Parse>::parse`: each
pattern between the bars is converted by `Param::from_pat`; the first
failure aborts the whole parse (the `?` operator). -/
def parseParams : List SynPat → Except SynError (List Param)
  | [] => .ok []
  | p :: rest => do
    let value ← Param.from_pat p
    let values ← parseParams rest
    pure (value :: values)

/-- The raw macro input: the comma-separated patterns between the bars,
the return type fragment and the body fragment (both opaque). -/
structure LutInput (β τ : Type) where
  pats : List SynPat
  return_type : τ
  body : β

/-- Mirrors `struct Lut` (minus the stored punctuation tokens): the
parsed specification. -/
structure LutSpec (β τ : Type) where
  inputs : List Param
  return_type : τ
  body : β
deriving DecidableEq, Repr

/-- Mirrors `<Lut as Parse>::parse` at the granularity of this model:
parse every parameter pattern, keep the return type and body fragments
opaque. -/
def parseLut (input : LutInput β τ) : Except SynError (LutSpec β τ) := do
  let inputs ← parseParams input.pats
  pure ⟨inputs, input.return_type, input.body⟩

/-- The emitted output: `static __LUT: #lut_type = #table_data;` plus the
closure `|#(#lut_params),*| #lut_access`. -/
structure LutOutput (β τ : Type) where
  static_type : LutType τ
  static_init : GenExpr β
  closure_params : List String
  closure_body : IndexExpr

/-- The code-generation phase of `lut` applied to a parsed
specification: the four folds over `input.inputs`. -/
def expandLut (spec : LutSpec β τ) : LutOutput β τ :=
  ⟨lut_type spec.inputs spec.return_type,
   table_data spec.inputs (.body spec.body),
   lut_params spec.inputs,
   lut_access spec.inputs⟩

/-- The whole proc macro `lut`: `parse_macro_input!` followed by code
generation; a parse/validation error aborts with that error and no
output (hence no table) is produced. -/
def runLut (input : LutInput β τ) : Except SynError (LutOutput β τ) :=
  (parseLut input).map expandLut

/-! ### Auxiliary semantic definitions used in the statements -/

/-- Chained Rust indexing of a value by a list of indices, propagating a
panic (`none`). -/
def indexChain (o : Option (Value α)) (is : List Nat) : Option (Value α) :=
  is.foldl (fun acc i => acc.bind (fun v => v.index i)) o

/-- Number of entries in the outermost dimension of a value. -/
def topLen : Value α → Nat
  | .scalar _ => 0
  | .arr items => items.length

/-- A concrete body denotation used for closed instances: the body reads
the injected constants `x` and `y`. -/
def sampleDenote : Nat → Env → Nat :=
  fun b env => env "x" * 100 + env "y" * 10 + b

/-- A concrete ambient environment for closed instances. -/
def zeroEnv : Env := fun _ => 0

/-! ### Basic lemmas about the range model -/

theorem rangeFrom_length (n : Nat) : ∀ s, (rangeFrom s n).length = n := by
  induction n with
  | zero => intro s; rfl
  | succ n ih => intro s; simp [rangeFrom, ih]

theorem rangeFrom_get? (n : Nat) :
    ∀ s i, (rangeFrom s n)[i]? = if i < n then some (s + i) else none := by
  induction n with
  | zero => intro s i; simp [rangeFrom]
  | succ n ih =>
    intro s i
    cases i with
    | zero => simp [rangeFrom]
    | succ i =>
      simp only [rangeFrom, List.getElem?_cons_succ, ih]
      by_cases h : i < n
      · simp only [h, if_true, Nat.succ_lt_succ h, if_pos]
        congr 1
        omega
      · have h' : ¬ i + 1 < n + 1 := fun hh => h (Nat.lt_of_succ_lt_succ hh)
        simp [h, h']

theorem Param.rangeValues_length (p : Param) (h : p.lo ≤ p.hi) :
    p.rangeValues.length = p.count := by
  cases hx : p.exclusive_end
  · have heq : p.hi + 1 - p.lo = p.hi - p.lo + 1 := by omega
    simp [Param.rangeValues, Param.count, rustRangeInclusive, hx,
      rangeFrom_length, heq]
  · simp [Param.rangeValues, Param.count, rustRangeExclusive, hx,
      rangeFrom_length]

theorem Param.rangeValues_get? (p : Param) (h : p.lo ≤ p.hi) (i : Nat) :
    p.rangeValues[i]? = if i < p.count then some (p.lo + i) else none := by
  cases hx : p.exclusive_end
  · have heq : p.hi + 1 - p.lo = p.hi - p.lo + 1 := by omega
    simp [Param.rangeValues, Param.count, rustRangeInclusive, hx,
      rangeFrom_get?, heq]
  · simp [Param.rangeValues, Param.count, rustRangeExclusive, hx,
      rangeFrom_get?]

/-! ### Evaluation lemmas -/

theorem evalGenList_eq_map (d : β → Env → α) (es : List (GenExpr β)) (env : Env) :
    evalGenList d es env = es.map (fun e => evalGen d e env) := by
  induction es with
  | nil => rfl
  | cons e es ih => simp [evalGenList, ih]

theorem evalGen_array (d : β → Env → α) (es : List (GenExpr β)) (env : Env) :
    evalGen d (.array es) env = .arr (es.map (fun e => evalGen d e env)) := by
  simp [evalGen, evalGenList_eq_map]

theorem table_data_nil (b : GenExpr β) : table_data [] b = b := rfl

theorem table_data_cons (p : Param) (ps : List Param) (b : GenExpr β) :
    table_data (p :: ps) b = table_step (table_data ps b) p := by
  simp [table_data, List.foldl_append]

theorem table_step_eq (b : GenExpr β) (p : Param) :
    table_step b p = .array (p.rangeValues.map (fun n => .constBind p.ident n b)) := by
  cases hx : p.exclusive_end <;>
    simp [table_step, generate_array, Param.rangeValues, hx]

/-! ### Lemmas about chained indexing -/

theorem indexChain_nil (o : Option (Value α)) : indexChain o [] = o := rfl

theorem indexChain_cons (o : Option (Value α)) (i : Nat) (is : List Nat) :
    indexChain o (i :: is) = indexChain (o.bind (fun v => v.index i)) is := rfl

theorem indexChain_none (is : List Nat) :
    indexChain (none : Option (Value α)) is = none := by
  induction is with
  | nil => rfl
  | cons i is ih => simpa [indexChain_cons] using ih

/-! ### Lemmas about environment binding -/

theorem Env.update_same (env : Env) (x : String) (v : Nat) :
    Env.update env x v x = v := by
  simp [Env.update]

theorem Env.update_other (env : Env) (x y : String) (v : Nat) (h : y ≠ x) :
    Env.update env x v y = env y := by
  simp [Env.update, h]

theorem bindArgs_cons (n : String) (ns : List String) (a : Nat) (as' : List Nat)
    (env : Env) :
    bindArgs (n :: ns) (a :: as') env = bindArgs ns as' (Env.update env n a) := rfl

theorem bindArgs_notMem (ns : List String) :
    ∀ (as' : List Nat) (env : Env) (x : String), x ∉ ns →
      bindArgs ns as' env x = env x := by
  induction ns with
  | nil => intro as' env x _; rfl
  | cons n ns ih =>
    intro as' env x hx
    cases as' with
    | nil => rfl
    | cons a as' =>
      rw [bindArgs_cons, ih as' _ x (fun h => hx (List.mem_cons_of_mem _ h)),
        Env.update_other]
      exact fun h => hx (h ▸ List.mem_cons_self _ _)

theorem bindArgs_map (ns : List String) :
    ∀ (as' : List Nat) (env : Env), ns.Nodup → ns.length = as'.length →
      ns.map (fun x => bindArgs ns as' env x) = as' := by
  induction ns with
  | nil =>
    intro as' env _ hlen
    cases as' with
    | nil => rfl
    | cons a as' => simp at hlen
  | cons n ns ih =>
    intro as' env hnd hlen
    cases as' with
    | nil => simp at hlen
    | cons a as' =>
      have hn : n ∉ ns := (List.nodup_cons.mp hnd).1
      have hnd' : ns.Nodup := (List.nodup_cons.mp hnd).2
      have hlen' : ns.length = as'.length := by simpa using hlen
      simp only [List.map_cons, bindArgs_cons]
      rw [bindArgs_notMem ns as' _ n hn, Env.update_same,
        ih as' (Env.update env n a) hnd' hlen']

theorem bindParams_nil (env : Env) : bindParams env [] [] = env := rfl

theorem bindParams_cons (env : Env) (p : Param) (ps : List Param) (i : Nat)
    (is : List Nat) :
    bindParams env (p :: ps) (i :: is)
      = bindParams (Env.update env p.ident (p.lo + i)) ps is := rfl

theorem bindParams_notMem (ps : List Param) :
    ∀ (is : List Nat) (env : Env) (x : String), x ∉ ps.map Param.ident →
      bindParams env ps is x = env x := by
  induction ps with
  | nil => intro is env x _; cases is <;> rfl
  | cons p ps ih =>
    intro is env x hx
    cases is with
    | nil => rfl
    | cons i is =>
      rw [bindParams_cons, ih is _ x (fun h => hx (List.mem_cons_of_mem _ h)),
        Env.update_other]
      exact fun h => hx (h ▸ List.mem_cons_self _ _)

theorem bindParams_get (ps : List Param) :
    ∀ (is : List Nat) (env : Env), (ps.map Param.ident).Nodup →
      ∀ (k : Nat) (hk : k < ps.length) (hk' : k < is.length),
        bindParams env ps is ((ps.get ⟨k, hk⟩).ident)
          = (ps.get ⟨k, hk⟩).lo + is.get ⟨k, hk'⟩ := by
  induction ps with
  | nil => intro is env _ k hk; exact absurd hk (Nat.not_lt_zero k)
  | cons p ps ih =>
    intro is env hnd k hk hk'
    cases is with
    | nil => exact absurd hk' (Nat.not_lt_zero k)
    | cons i is =>
      have hcons : (p.ident :: ps.map Param.ident).Nodup := by
        simpa using hnd
      have hn : p.ident ∉ ps.map Param.ident := (List.nodup_cons.mp hcons).1
      have hnd' : (ps.map Param.ident).Nodup := (List.nodup_cons.mp hcons).2
      cases k with
      | zero =>
        rw [bindParams_cons]
        show bindParams (Env.update env p.ident (p.lo + i)) ps is p.ident = p.lo + i
        rw [bindParams_notMem ps is _ p.ident hn, Env.update_same]
      | succ k =>
        rw [bindParams_cons]
        exact ih is _ hnd' k (Nat.lt_of_succ_lt_succ hk) (Nat.lt_of_succ_lt_succ hk')

/-! ### Core lemmas: semantics of the generated table and accessor -/

theorem table_cell_lookup (d : β → Env → α) (b : GenExpr β) (p : Param)
    (env : Env) (i : Nat) (hp : p.lo ≤ p.hi) (hi : i < p.count) :
    ((p.rangeValues.map (fun n => GenExpr.constBind p.ident n b)).map
        (fun e => evalGen d e env))[i]?
      = some (evalGen d b (Env.update env p.ident (p.lo + i))) := by
  rw [List.getElem?_map, List.getElem?_map, Param.rangeValues_get? p hp, if_pos hi]
  rfl

theorem table_cell_lookup_oob (d : β → Env → α) (b : GenExpr β) (p : Param)
    (env : Env) (i : Nat) (hp : p.lo ≤ p.hi) (hi : ¬ i < p.count) :
    ((p.rangeValues.map (fun n => GenExpr.constBind p.ident n b)).map
        (fun e => evalGen d e env))[i]? = none := by
  rw [List.getElem?_map, List.getElem?_map, Param.rangeValues_get? p hp, if_neg hi]
  rfl

theorem table_access_inRange (d : β → Env → α) (b : β) :
    ∀ (ps : List Param) (env : Env) (is : List Nat),
      (∀ p ∈ ps, p.lo ≤ p.hi) →
      is.length = ps.length →
      (∀ (k : Nat) (hk : k < ps.length) (hk' : k < is.length),
          is.get ⟨k, hk'⟩ < (ps.get ⟨k, hk⟩).count) →
      indexChain (some (evalGen d (table_data ps (.body b)) env)) is
        = some (.scalar (d b (bindParams env ps is))) := by
  intro ps
  induction ps with
  | nil =>
    intro env is _ hlen _
    cases is with
    | nil => rfl
    | cons i is => simp at hlen
  | cons p ps ih =>
    intro env is hval hlen hin
    cases is with
    | nil => simp at hlen
    | cons i is =>
      have hp : p.lo ≤ p.hi := hval p (List.mem_cons_self _ _)
      have hi : i < p.count := hin 0 (by simp) (by simp)
      rw [table_data_cons, table_step_eq, evalGen_array, indexChain_cons,
        bindParams_cons]
      show indexChain
        (((p.rangeValues.map (fun n => GenExpr.constBind p.ident n
            (table_data ps (.body b)))).map (fun e => evalGen d e env))[i]?) is = _
      rw [table_cell_lookup d _ p env i hp hi]
      show indexChain (some (evalGen d (table_data ps (.body b))
        (Env.update env p.ident (p.lo + i)))) is = _
      exact ih _ is (fun q hq => hval q (List.mem_cons_of_mem _ hq))
        (by simpa using hlen)
        (fun k hk hk' => hin (k + 1) (Nat.succ_lt_succ hk) (Nat.succ_lt_succ hk'))

theorem table_access_oob (d : β → Env → α) (b : β) :
    ∀ (ps : List Param) (env : Env) (is : List Nat),
      (∀ p ∈ ps, p.lo ≤ p.hi) →
      is.length = ps.length →
      (∃ (k : Nat) (hk : k < ps.length) (hk' : k < is.length),
          (ps.get ⟨k, hk⟩).count ≤ is.get ⟨k, hk'⟩) →
      indexChain (some (evalGen d (table_data ps (.body b)) env)) is = none := by
  intro ps
  induction ps with
  | nil =>
    intro env is _ _ hoob
    obtain ⟨k, hk, _⟩ := hoob
    exact absurd hk (Nat.not_lt_zero k)
  | cons p ps ih =>
    intro env is hval hlen hoob
    cases is with
    | nil => simp at hlen
    | cons i is =>
      have hp : p.lo ≤ p.hi := hval p (List.mem_cons_self _ _)
      rw [table_data_cons, table_step_eq, evalGen_array, indexChain_cons]
      by_cases hi : i < p.count
      · show indexChain
          (((p.rangeValues.map (fun n => GenExpr.constBind p.ident n
              (table_data ps (.body b)))).map (fun e => evalGen d e env))[i]?) is = _
        rw [table_cell_lookup d _ p env i hp hi]
        obtain ⟨k, hk, hk', hge⟩ := hoob
        cases k with
        | zero => exact absurd hge (by simpa using hi)
        | succ k =>
          exact ih _ is (fun q hq => hval q (List.mem_cons_of_mem _ hq))
            (by simpa using hlen)
            ⟨k, Nat.lt_of_succ_lt_succ hk, Nat.lt_of_succ_lt_succ hk', hge⟩
      · show indexChain
          (((p.rangeValues.map (fun n => GenExpr.constBind p.ident n
              (table_data ps (.body b)))).map (fun e => evalGen d e env))[i]?) is = _
        rw [table_cell_lookup_oob d _ p env i hp hi]
        exact indexChain_none is

theorem evalIndexExpr_foldl (T : Value α) (env : Env) :
    ∀ (ps : List Param) (acc : IndexExpr),
      evalIndexExpr T env (ps.foldl (fun e p => .index e p.ident) acc)
        = indexChain (evalIndexExpr T env acc)
            (ps.map (fun p => env p.ident)) := by
  intro ps
  induction ps with
  | nil => intro acc; rfl
  | cons p ps ih =>
    intro acc
    rw [List.foldl_cons, ih, List.map_cons, indexChain_cons]
    rfl

theorem lutCall_eq_indexChain (d : β → Env → α) (ps : List Param) (b : β)
    (env : Env) (is : List Nat)
    (hnd : (ps.map Param.ident).Nodup) (hlen : is.length = ps.length) :
    lutCall d ps b env is
      = indexChain (some (evalGen d (table_data ps (.body b)) env)) is := by
  unfold lutCall lut_access
  rw [evalIndexExpr_foldl]
  have hmap : ps.map (fun p => bindArgs (lut_params ps) is env p.ident) = is := by
    have hbm := bindArgs_map (ps.map Param.ident) is env hnd
      (by simpa using hlen.symm)
    calc ps.map (fun p => bindArgs (lut_params ps) is env p.ident)
        = (ps.map Param.ident).map
            (fun x => bindArgs (ps.map Param.ident) is env x) := by
          rw [List.map_map]; rfl
      _ = is := hbm
  rw [hmap]
  rfl

theorem Env.update_comm (env : Env) (x y : String) (u v : Nat) (h : x ≠ y) :
    Env.update (Env.update env x u) y v = Env.update (Env.update env y v) x u := by
  funext z
  simp only [Env.update]
  have hyx : ¬ (y = x) := fun hyx => h hyx.symm
  by_cases hzy : z = y
  · by_cases hzx : z = x
    · exact absurd (hzx.symm.trans hzy) h
    · simp [hzy, hzx, hyx]
  · by_cases hzx : z = x <;> simp [hzy, hzx, h]

/-! ### Error-propagation lemmas for the parse phase -/

theorem parseLut_error {β τ : Type} (pats : List SynPat) (rt : τ) (b : β)
    (e : SynError) (h : parseParams pats = .error e) :
    parseLut (⟨pats, rt, b⟩ : LutInput β τ) = .error e := by
  simp [parseLut, h]

theorem runLut_error {β τ : Type} (input : LutInput β τ) (e : SynError)
    (h : parseParams input.pats = .error e) :
    runLut input = .error e := by
  obtain ⟨pats, rt, b⟩ := input
  simp only [runLut, parseLut_error pats rt b e h]
  rfl

theorem parseParams_error_of_mem :
    ∀ (pats : List SynPat) (p : SynPat) (e : SynError),
      p ∈ pats → Param.from_pat p = .error e →
      ∃ e', parseParams pats = .error e' := by
  intro pats
  induction pats with
  | nil => intro p e hp _; exact absurd hp (List.not_mem_nil p)
  | cons q pats ih =>
    intro p e hp herr
    rcases List.mem_cons.mp hp with h | h
    · subst h
      exact ⟨e, by simp only [parseParams, herr]; rfl⟩
    · obtain ⟨e', he'⟩ := ih p e h herr
      cases hq : Param.from_pat q with
      | error eq => exact ⟨eq, by simp only [parseParams, hq]; rfl⟩
      | ok v => exact ⟨e', by simp only [parseParams, hq, he']; rfl⟩

/-- Every parameter accepted by validation satisfies `lo ≤ hi`: the
hypothesis used by the accessor theorems below is exactly what
acceptance by `Param::from_pat` guarantees. -/
theorem from_pat_ok_valid :
    ∀ (pat : SynPat) (p : Param), Param.from_pat pat = .ok p → p.lo ≤ p.hi := by
  intro pat p h
  cases pat with
  | identPat name sp sub =>
    cases sub with
    | none => simp [Param.from_pat, Param.from_pat_ident] at h
    | some inner =>
      cases inner with
      | rangePat lo limits hi psp =>
        cases lo with
        | lit l lsp =>
          cases l with
          | int loVal =>
            cases hi with
            | lit l2 hsp =>
              cases l2 with
              | int hiVal =>
                by_cases hc : hiVal < loVal
                · simp [Param.from_pat, Param.from_pat_ident, hc] at h
                · simp only [Param.from_pat, Param.from_pat_ident, if_neg hc] at h
                  injection h with h
                  subst h
                  exact Nat.le_of_not_lt hc
              | float s => simp [Param.from_pat, Param.from_pat_ident] at h
              | str s => simp [Param.from_pat, Param.from_pat_ident] at h
            | path n2 sp2 => simp [Param.from_pat, Param.from_pat_ident] at h
            | call f sp2 => simp [Param.from_pat, Param.from_pat_ident] at h
            | otherExpr ds sp2 => simp [Param.from_pat, Param.from_pat_ident] at h
          | float s => simp [Param.from_pat, Param.from_pat_ident] at h
          | str s => simp [Param.from_pat, Param.from_pat_ident] at h
        | path n2 sp2 => simp [Param.from_pat, Param.from_pat_ident] at h
        | call f sp2 => simp [Param.from_pat, Param.from_pat_ident] at h
        | otherExpr ds sp2 => simp [Param.from_pat, Param.from_pat_ident] at h
      | identPat n2 sp2 sub2 => simp [Param.from_pat, Param.from_pat_ident] at h
      | wild sp2 => simp [Param.from_pat, Param.from_pat_ident] at h
      | tuplePat sp2 => simp [Param.from_pat, Param.from_pat_ident] at h
      | litPat sp2 => simp [Param.from_pat, Param.from_pat_ident] at h
  | rangePat lo limits hi sp => simp [Param.from_pat] at h
  | wild sp => simp [Param.from_pat] at h
  | tuplePat sp => simp [Param.from_pat] at h
  | litPat sp => simp [Param.from_pat] at h

/-! ### The claims -/

/-- C1: for every specification accepted by the generator (every range
validated, so `lo ≤ hi`, and parameter names distinct) and every index
tuple with `i_k < count(p_k)` in each dimension, the generated accessor
returns exactly the body's value evaluated with each parameter name
`p_k` bound as a constant to `lo_k + i_k`: the call yields the body
denotation under the environment `bindParams env ps is`, and that
environment maps each parameter's name to `lo_k + i_k`. -/
theorem accessor_exhaustive_correctness
    {α β : Type} (d : β → Env → α) (ps : List Param) (b : β) (env : Env)
    (is : List Nat)
    (hval : ∀ p ∈ ps, p.lo ≤ p.hi)
    (hnd : (ps.map Param.ident).Nodup)
    (hlen : is.length = ps.length)
    (hin : ∀ (k : Nat) (hk : k < ps.length) (hk' : k < is.length),
        is.get ⟨k, hk'⟩ < (ps.get ⟨k, hk⟩).count) :
    lutCall d ps b env is = some (.scalar (d b (bindParams env ps is)))
    ∧ ∀ (k : Nat) (hk : k < ps.length) (hk' : k < is.length),
        bindParams env ps is ((ps.get ⟨k, hk⟩).ident)
          = (ps.get ⟨k, hk⟩).lo + is.get ⟨k, hk'⟩ := by
  refine ⟨?_, fun k hk hk' => bindParams_get ps is env hnd k hk hk'⟩
  rw [lutCall_eq_indexChain d ps b env is hnd hlen]
  exact table_access_inRange d b ps env is hval hlen hin

/-- Closed instance of C1 at the two-parameter specification
`|x @ 0..3, y @ 5..=6| { .. }` with indices `(2, 1)`: the cell holds the
body's value at `x = 2`, `y = 6`. -/
theorem accessor_exhaustive_correctness_witness :
    lutCall sampleDenote [⟨"x", 0, true, 3⟩, ⟨"y", 5, false, 6⟩] 4 zeroEnv [2, 1]
      = some (.scalar 264) :=
  (accessor_exhaustive_correctness sampleDenote
    [⟨"x", 0, true, 3⟩, ⟨"y", 5, false, 6⟩] 4 zeroEnv [2, 1]
    (by decide) (by decide) rfl (by decide)).1

/-- C2: the number of entries in a validated parameter's table dimension
is `hi - lo` for an exclusive range and `hi - lo + 1` for an inclusive
one; for a single-parameter specification, `0..N` makes exactly the
indices `< N` valid and `0..=N` exactly the indices `≤ N`. -/
theorem inclusive_exclusive_boundary_law {α β : Type} (d : β → Env → α) :
    (∀ (p : Param) (b : β) (env : Env), p.lo ≤ p.hi →
        topLen (evalGen d (table_data [p] (.body b)) env)
          = if p.exclusive_end then p.hi - p.lo else p.hi - p.lo + 1)
    ∧ (∀ (x : String) (N i : Nat) (b : β) (env : Env),
        (lutCall d [⟨x, 0, true, N⟩] b env [i]).isSome ↔ i < N)
    ∧ (∀ (x : String) (N i : Nat) (b : β) (env : Env),
        (lutCall d [⟨x, 0, false, N⟩] b env [i]).isSome ↔ i ≤ N) := by
  have hsingle : ∀ (x : String) (exEnd : Bool) (N i : Nat) (b : β) (env : Env),
      (lutCall d [⟨x, 0, exEnd, N⟩] b env [i]).isSome
        ↔ i < Param.count ⟨x, 0, exEnd, N⟩ := by
    intro x exEnd N i b env
    have hval : ∀ p ∈ [(⟨x, 0, exEnd, N⟩ : Param)], p.lo ≤ p.hi := by
      intro p hp
      simp only [List.mem_singleton] at hp
      subst hp
      exact Nat.zero_le N
    have hnd : ([(⟨x, 0, exEnd, N⟩ : Param)].map Param.ident).Nodup := by simp
    rw [lutCall_eq_indexChain d _ b env [i] hnd rfl]
    by_cases h : i < Param.count ⟨x, 0, exEnd, N⟩
    · rw [table_access_inRange d b _ env [i] hval rfl ?_]
      · simp [h]
      · intro k hk hk'
        have hk0 : k = 0 := by simpa using hk
        subst hk0
        simpa using h
    · rw [table_access_oob d b _ env [i] hval rfl ⟨0, by simp, by simp, by simpa using Nat.le_of_not_lt h⟩]
      simp [h]
  refine ⟨?_, ?_, ?_⟩
  · intro p b env hp
    rw [table_data_cons, table_data_nil, table_step_eq, evalGen_array]
    show (p.rangeValues.map _ |>.map _).length = _
    rw [List.length_map, List.length_map, Param.rangeValues_length p hp]
    rfl
  · intro x N i b env
    have := hsingle x true N i b env
    simpa [Param.count] using this
  · intro x N i b env
    have := hsingle x false N i b env
    rw [this]
    simp only [Param.count, if_neg (by simp : ¬ (false : Bool) = true)]
    omega

/-- Closed instance of C2: a dimension `x @ 1..4` has 3 entries; for
`x @ 0..5` index 5 is invalid while for `x @ 0..=5` it is valid. -/
theorem inclusive_exclusive_boundary_law_witness :
    topLen (evalGen sampleDenote
        (table_data [⟨"x", 1, true, 4⟩] (.body 0)) zeroEnv) = 3
    ∧ ((lutCall sampleDenote [⟨"x", 0, true, 5⟩] 0 zeroEnv [5]).isSome ↔ 5 < 5)
    ∧ ((lutCall sampleDenote [⟨"x", 0, false, 5⟩] 0 zeroEnv [5]).isSome ↔ 5 ≤ 5) :=
  ⟨(inclusive_exclusive_boundary_law sampleDenote).1 ⟨"x", 1, true, 4⟩ 0 zeroEnv
      (by decide),
   (inclusive_exclusive_boundary_law sampleDenote).2.1 "x" 5 5 0 zeroEnv,
   (inclusive_exclusive_boundary_law sampleDenote).2.2 "x" 5 5 0 zeroEnv⟩

/-- C3: calling the generated accessor with an index at or beyond
`count(p_k)` in some dimension `k` — whatever the other indices are —
produces the run-time fault (`none`) and never returns a value. -/
theorem out_of_bounds_access_faults
    {α β : Type} (d : β → Env → α) (ps : List Param) (b : β) (env : Env)
    (is : List Nat)
    (hval : ∀ p ∈ ps, p.lo ≤ p.hi)
    (hnd : (ps.map Param.ident).Nodup)
    (hlen : is.length = ps.length)
    (hoob : ∃ (k : Nat) (hk : k < ps.length) (hk' : k < is.length),
        (ps.get ⟨k, hk⟩).count ≤ is.get ⟨k, hk'⟩) :
    lutCall d ps b env is = none := by
  rw [lutCall_eq_indexChain d ps b env is hnd hlen]
  exact table_access_oob d b ps env is hval hlen hoob

/-- Closed instance of C3, mirroring the repository's `out_of_bounds`
test: for `|x @ 0..8, y @ 0..16|`, the call `lut(10, 3)` faults. -/
theorem out_of_bounds_access_faults_witness :
    lutCall sampleDenote [⟨"x", 0, true, 8⟩, ⟨"y", 0, true, 16⟩] 0 zeroEnv [10, 3]
      = none :=
  out_of_bounds_access_faults sampleDenote
    [⟨"x", 0, true, 8⟩, ⟨"y", 0, true, 16⟩] 0 zeroEnv [10, 3]
    (by decide) (by decide) rfl ⟨0, by decide, by decide, by decide⟩

/-- C4: swapping the declared order of two distinctly named parameters
swaps the accessor's argument order consistently: the accessor for
`(x @ R1, y @ R2)` at `(a, c)` returns the same value as the accessor
for `(y @ R2, x @ R1)` at `(c, a)`, for all in-range `a`, `c`. -/
theorem parameter_order_swap
    {α β : Type} (d : β → Env → α) (p q : Param) (b : β) (env : Env)
    (a c : Nat)
    (hpq : p.ident ≠ q.ident)
    (hp : p.lo ≤ p.hi) (hq : q.lo ≤ q.hi)
    (ha : a < p.count) (hc : c < q.count) :
    lutCall d [p, q] b env [a, c] = lutCall d [q, p] b env [c, a] := by
  have hval1 : ∀ r ∈ [p, q], r.lo ≤ r.hi := by
    intro r hr
    rcases List.mem_cons.mp hr with h | h
    · exact h ▸ hp
    · rcases List.mem_cons.mp h with h' | h'
      · exact h' ▸ hq
      · exact absurd h' (List.not_mem_nil r)
  have hval2 : ∀ r ∈ [q, p], r.lo ≤ r.hi := by
    intro r hr
    rcases List.mem_cons.mp hr with h | h
    · exact h ▸ hq
    · rcases List.mem_cons.mp h with h' | h'
      · exact h' ▸ hp
      · exact absurd h' (List.not_mem_nil r)
  have hnd1 : ([p, q].map Param.ident).Nodup := by simp [hpq]
  have hqp : ¬ q.ident = p.ident := fun h => hpq h.symm
  have hnd2 : ([q, p].map Param.ident).Nodup := by simp [hqp]
  have hin1 : ∀ (k : Nat) (hk : k < ([p, q] : List Param).length)
      (hk' : k < ([a, c] : List Nat).length),
      ([a, c] : List Nat).get ⟨k, hk'⟩ < (([p, q] : List Param).get ⟨k, hk⟩).count := by
    intro k hk _
    match k, hk with
    | 0, _ => exact ha
    | 1, _ => exact hc
  have hin2 : ∀ (k : Nat) (hk : k < ([q, p] : List Param).length)
      (hk' : k < ([c, a] : List Nat).length),
      ([c, a] : List Nat).get ⟨k, hk'⟩ < (([q, p] : List Param).get ⟨k, hk⟩).count := by
    intro k hk _
    match k, hk with
    | 0, _ => exact hc
    | 1, _ => exact ha
  rw [lutCall_eq_indexChain d [p, q] b env [a, c] hnd1 rfl,
    lutCall_eq_indexChain d [q, p] b env [c, a] hnd2 rfl,
    table_access_inRange d b [p, q] env [a, c] hval1 rfl hin1,
    table_access_inRange d b [q, p] env [c, a] hval2 rfl hin2]
  have henv : bindParams env [p, q] [a, c] = bindParams env [q, p] [c, a] := by
    show Env.update (Env.update env p.ident (p.lo + a)) q.ident (q.lo + c)
      = Env.update (Env.update env q.ident (q.lo + c)) p.ident (p.lo + a)
    exact Env.update_comm env p.ident q.ident (p.lo + a) (q.lo + c) hpq
  rw [henv]

/-- Closed instance of C4: the accessor for `(x @ 0..8, y @ 0..16)` at
`(3, 10)` agrees with the accessor for `(y @ 0..16, x @ 0..8)` at
`(10, 3)`. -/
theorem parameter_order_swap_witness :
    lutCall sampleDenote [⟨"x", 0, true, 8⟩, ⟨"y", 0, true, 16⟩] 0 zeroEnv [3, 10]
      = lutCall sampleDenote [⟨"y", 0, true, 16⟩, ⟨"x", 0, true, 8⟩] 0 zeroEnv
          [10, 3] :=
  parameter_order_swap sampleDenote ⟨"x", 0, true, 8⟩ ⟨"y", 0, true, 16⟩ 0 zeroEnv
    3 10 (by decide) (by decide) (by decide) (by decide) (by decide)

/-- C5 counterexample: the parameter `x @ 5..5` — exclusive range with
`high == low`, hence element count 0 — is NOT rejected by range
validation: `Param::from_pat` accepts it, and the generator builds a
table (with an empty dimension) for the specification, contrary to the
claim. -/
theorem zero_count_param_accepted_cex :
    Param.from_pat (.identPat "x" 0 (some (.rangePat (.lit (.int 5) 1)
        .HalfOpen (.lit (.int 5) 2) 3)))
      = .ok ⟨"x", 5, true, 5⟩
    ∧ runLut (β := Nat) (τ := String)
        ⟨[.identPat "x" 0 (some (.rangePat (.lit (.int 5) 1) .HalfOpen
            (.lit (.int 5) 2) 3))], "u32", 0⟩
      = .ok ⟨.arr (.base "u32") 0, .array [], ["x"], .index .lutRef "x"⟩ :=
  ⟨rfl, rfl⟩

/-- C5 amended: range validation rejects only `high < low`; an exclusive
range with `high == low` (count 0) is accepted by
`Param::from_pat_ident`, the table dimension built for such a parameter
is the empty array, and every access to that dimension faults at run
time. -/
theorem zero_count_param_amended {α β : Type} (d : β → Env → α)
    (name : String) (identSpan s1 s2 patSpan lv : Nat) (b : β) (env : Env)
    (i : Nat) :
    Param.from_pat_ident name identSpan (some (.rangePat (.lit (.int lv) s1)
        .HalfOpen (.lit (.int lv) s2) patSpan))
      = .ok ⟨name, lv, true, lv⟩
    ∧ table_step (GenExpr.body b) ⟨name, lv, true, lv⟩ = .array []
    ∧ lutCall d [⟨name, lv, true, lv⟩] b env [i] = none := by
  refine ⟨by simp [Param.from_pat_ident], ?_, ?_⟩
  · simp [table_step, generate_array, rustRangeExclusive, Nat.sub_self, rangeFrom]
  · rw [lutCall_eq_indexChain d _ b env [i] (by simp) rfl]
    refine table_access_oob d b _ env [i] ?_ rfl
      ⟨0, by simp, by simp, ?_⟩
    · intro p hp
      simp only [List.mem_singleton] at hp
      subst hp
      exact Nat.le_refl lv
    · show Param.count ⟨name, lv, true, lv⟩ ≤ i
      simp [Param.count]

/-- C6: a range with integer-literal bounds and `high < low` is rejected
by validation with a location-tagged error (at the range pattern's span)
stating both bounds; the whole macro run then fails with that error and
builds no table; conversely any `high ≥ low` passes validation and
yields the parsed parameter. -/
theorem inverted_range_rejected
    (name : String) (identSpan loSpan hiSpan patSpan : Nat)
    (loVal hiVal : Nat) (limits : RangeLimits) :
    (hiVal < loVal →
      Param.from_pat_ident name identSpan (some (.rangePat
          (.lit (.int loVal) loSpan) limits (.lit (.int hiVal) hiSpan) patSpan))
        = .error ⟨patSpan, "range lower bound " ++ toString loVal ++
            " must be less than upper bound " ++ toString hiVal⟩)
    ∧ (hiVal < loVal → ∀ (β τ : Type) (rest : List SynPat) (rt : τ) (b : β),
        runLut (⟨.identPat name identSpan (some (.rangePat
            (.lit (.int loVal) loSpan) limits (.lit (.int hiVal) hiSpan)
            patSpan)) :: rest, rt, b⟩ : LutInput β τ)
          = .error ⟨patSpan, "range lower bound " ++ toString loVal ++
              " must be less than upper bound " ++ toString hiVal⟩)
    ∧ (loVal ≤ hiVal →
      Param.from_pat_ident name identSpan (some (.rangePat
          (.lit (.int loVal) loSpan) limits (.lit (.int hiVal) hiSpan) patSpan))
        = .ok ⟨name, loVal,
            (match limits with
             | RangeLimits.Closed => false
             | RangeLimits.HalfOpen => true), hiVal⟩) := by
  refine ⟨fun h => by simp [Param.from_pat_ident, h], fun h β τ rest rt b => ?_,
    fun h => by simp [Param.from_pat_ident, Nat.not_lt.mpr h]⟩
  apply runLut_error
  show parseParams (_ :: rest) = _
  have herr : Param.from_pat (.identPat name identSpan (some (.rangePat
      (.lit (.int loVal) loSpan) limits (.lit (.int hiVal) hiSpan) patSpan)))
      = .error ⟨patSpan, "range lower bound " ++ toString loVal ++
          " must be less than upper bound " ++ toString hiVal⟩ := by
    simp [Param.from_pat, Param.from_pat_ident, h]
  simp only [parseParams, herr]
  rfl

/-- Closed instance of C6: `y @ 8..0` is rejected — by validation and by
the whole macro run — with the both-bounds message at the range's span,
while `x @ 1..2` passes validation. -/
theorem inverted_range_rejected_witness :
    Param.from_pat_ident "y" 0 (some (.rangePat (.lit (.int 8) 1) .HalfOpen
        (.lit (.int 0) 2) 3))
      = .error ⟨3, "range lower bound " ++ toString 8 ++
          " must be less than upper bound " ++ toString 0⟩
    ∧ runLut (⟨[.identPat "y" 0 (some (.rangePat (.lit (.int 8) 1) .HalfOpen
          (.lit (.int 0) 2) 3))], "u32", 0⟩ : LutInput Nat String)
      = .error ⟨3, "range lower bound " ++ toString 8 ++
          " must be less than upper bound " ++ toString 0⟩
    ∧ Param.from_pat_ident "x" 0 (some (.rangePat (.lit (.int 1) 1) .HalfOpen
        (.lit (.int 2) 2) 3))
      = .ok ⟨"x", 1, true, 2⟩ :=
  ⟨(inverted_range_rejected "y" 0 1 2 3 8 0 .HalfOpen).1 (by decide),
   (inverted_range_rejected "y" 0 1 2 3 8 0 .HalfOpen).2.1 (by decide)
     Nat String [] "u32" 0,
   (inverted_range_rejected "x" 0 1 2 3 1 2 .HalfOpen).2.2 (by decide)⟩

/-- C7: a range endpoint that is not an integer literal (a variable, a
call, a float literal, ...) is rejected with a location-tagged
`must be an integer literal` error at the offending sub-expression's
span, and no specification is produced from an input containing such a
parameter. -/
theorem non_literal_bound_rejected
    (name : String) (identSpan patSpan : Nat) (lo hi : SynExpr)
    (limits : RangeLimits) :
    (lo.isIntLit = false →
      Param.from_pat_ident name identSpan (some (.rangePat lo limits hi patSpan))
        = .error ⟨lo.span, "must be an integer literal"⟩)
    ∧ (∀ (loVal loSpan : Nat), hi.isIntLit = false →
      Param.from_pat_ident name identSpan (some (.rangePat
          (.lit (.int loVal) loSpan) limits hi patSpan))
        = .error ⟨hi.span, "must be an integer literal"⟩)
    ∧ (lo.isIntLit = false →
      ∀ (β τ : Type) (pats : List SynPat) (rt : τ) (b : β),
        (SynPat.identPat name identSpan (some (.rangePat lo limits hi patSpan)))
          ∈ pats →
        ∃ e, parseLut (⟨pats, rt, b⟩ : LutInput β τ) = .error e) := by
  have hlo : lo.isIntLit = false →
      Param.from_pat_ident name identSpan (some (.rangePat lo limits hi patSpan))
        = .error ⟨lo.span, "must be an integer literal"⟩ := by
    intro h
    cases lo with
    | lit l sp =>
      cases l with
      | int v => simp [SynExpr.isIntLit] at h
      | float s => rfl
      | str s => rfl
    | path n sp => rfl
    | call f sp => rfl
    | otherExpr ds sp => rfl
  refine ⟨hlo, ?_, ?_⟩
  · intro loVal loSpan h
    cases hi with
    | lit l sp =>
      cases l with
      | int v => simp [SynExpr.isIntLit] at h
      | float s => rfl
      | str s => rfl
    | path n sp => rfl
    | call f sp => rfl
    | otherExpr ds sp => rfl
  · intro h β τ pats rt b hmem
    obtain ⟨e', he'⟩ := parseParams_error_of_mem pats _ _ hmem
      (by simpa [Param.from_pat] using hlo h)
    exact ⟨e', parseLut_error pats rt b e' he'⟩

/-- Closed instance of C7: `x @ n..3` (a variable lower bound) and
`x @ 0..y` (a variable upper bound) are rejected at the offending
endpoint's span, and the first produces no specification. -/
theorem non_literal_bound_rejected_witness :
    Param.from_pat_ident "x" 0 (some (.rangePat (.path "n" 5) .HalfOpen
        (.lit (.int 3) 6) 7))
      = .error ⟨5, "must be an integer literal"⟩
    ∧ Param.from_pat_ident "x" 0 (some (.rangePat (.lit (.int 0) 5) .HalfOpen
        (.path "y" 6) 7))
      = .error ⟨6, "must be an integer literal"⟩
    ∧ ∃ e, parseLut (⟨[.identPat "x" 0 (some (.rangePat (.path "n" 5) .HalfOpen
        (.lit (.int 3) 6) 7))], "u32", 9⟩ : LutInput Nat String) = .error e :=
  ⟨(non_literal_bound_rejected "x" 0 7 (.path "n" 5) (.lit (.int 3) 6)
      .HalfOpen).1 rfl,
   (non_literal_bound_rejected "x" 0 7 (.lit (.int 0) 5) (.path "y" 6)
      .HalfOpen).2.1 0 5 rfl,
   (non_literal_bound_rejected "x" 0 7 (.path "n" 5) (.lit (.int 3) 6)
      .HalfOpen).2.2 rfl Nat String _ "u32" 9 (List.mem_singleton.mpr rfl)⟩

/-- C8: a parameter written as a bare identifier with no `@`-bound range
sub-pattern is a hard error at the identifier's span whose message names
the identifier and shows the required form. -/
theorem bare_ident_rejected (name : String) (identSpan : Nat) :
    Param.from_pat_ident name identSpan none
      = .error ⟨identSpan,
          "this parameter must have a specified range pattern (e.g. `" ++
            name ++ " @ 1..2`)"⟩ := rfl

/-- C9: the empty parameter list is accepted by the parser, and the
output is the degenerate rank-0 case: the static is bound directly to
the body with no array nesting, its declared type is the bare return
type, and the accessor is a zero-argument function returning the value
directly with no indexing. -/
theorem empty_param_list_degenerate {α β τ : Type} (d : β → Env → α)
    (rt : τ) (b : β) (env : Env) :
    runLut (⟨[], rt, b⟩ : LutInput β τ)
      = .ok ⟨.base rt, .body b, [], .lutRef⟩
    ∧ lutCall d [] b env [] = some (.scalar (d b env)) :=
  ⟨rfl, rfl⟩

/-- C10: the generator is deterministic and its output depends only on
the parsed parameters, the return-type fragment and the body fragment:
two inputs whose parameter lists parse identically and whose return
type and body agree produce identical output. -/
theorem generator_deterministic {β τ : Type} (i1 i2 : LutInput β τ)
    (hp : parseParams i1.pats = parseParams i2.pats)
    (hr : i1.return_type = i2.return_type) (hb : i1.body = i2.body) :
    runLut i1 = runLut i2 := by
  unfold runLut parseLut
  rw [hp, hr, hb]

/-- Closed instance of C10: two inputs differing only in source spans
parse identically and generate identical output. -/
theorem generator_deterministic_witness :
    runLut (⟨[.identPat "x" 0 (some (.rangePat (.lit (.int 0) 1) .HalfOpen
        (.lit (.int 2) 2) 3))], "u32", 7⟩ : LutInput Nat String)
      = runLut (⟨[.identPat "x" 10 (some (.rangePat (.lit (.int 0) 11) .HalfOpen
          (.lit (.int 2) 12) 13))], "u32", 7⟩ : LutInput Nat String) :=
  generator_deterministic _ _ rfl rfl rfl

end NumericLut
